import Mathlib

/-!
Verification development for the app discovery and caching engine of the
kcdshop workshop application (`packages/workshop-app/utils/apps.server.ts`).

The TypeScript source operates on JavaScript strings; we embed strings as
`List Char` (named `JStr`), which makes the JS string operations used by the
source (`replace` with a string pattern, `replaceAll`, `split`, `join`,
`includes`, `startsWith`, `endsWith`, `padStart`) directly implementable and
amenable to induction.  Paths are POSIX style (`path.sep` is the slash).
-/

set_option maxRecDepth 10000

namespace Kcdshop

/-- JavaScript strings, embedded as lists of characters. -/
abbrev JStr := List Char

/-- Conversion from Lean string literals to the embedding. -/
def js (s : String) : JStr := s.data

/-- POSIX `path.sep`. -/
def pathSep : Char := '/'

/-- JS `String.prototype.includes` (substring test). -/
def hasSubstr (pat : JStr) : JStr → Bool
  | [] => pat.isEmpty
  | c :: rest => pat.isPrefixOf (c :: rest) || hasSubstr pat rest

/-- JS `String.prototype.replace` with a string pattern: replaces the first
occurrence of `pat` (if any) by `repl`.  The empty pattern matches at the
start, as in JS. -/
def replaceFirst (pat repl : JStr) : JStr → JStr
  | [] => if pat.isEmpty then repl else []
  | c :: rest =>
    if pat.isPrefixOf (c :: rest) then repl ++ (c :: rest).drop pat.length
    else c :: replaceFirst pat repl rest

/-- Fuel-driven worker for `replaceAll`; the fuel is an upper bound on the
length of the remaining input, so the top-level wrapper never exhausts it. -/
def replaceAllGo (pat repl : JStr) : Nat → JStr → JStr
  | _, [] => []
  | 0, s => s
  | fuel + 1, c :: rest =>
    if pat.isPrefixOf (c :: rest) then
      repl ++ replaceAllGo pat repl fuel ((c :: rest).drop pat.length)
    else c :: replaceAllGo pat repl fuel rest

/-- JS `String.prototype.replaceAll` with a nonempty string pattern: replaces
every occurrence, scanning left to right, never rescanning replaced text.
(The source only ever calls this with the nonempty pattern `__sep__`.) -/
def replaceAll (pat repl s : JStr) : JStr :=
  replaceAllGo pat repl s.length s

/-- JS `String.prototype.split` with a single-character separator.  The
recursive result is never empty, so prepending to its first chunk with
`headD`/`tail` is exact. -/
def splitOnChar (sep : Char) : JStr → List JStr
  | [] => [[]]
  | c :: rest =>
    let r := splitOnChar sep rest
    if c = sep then [] :: r else (c :: r.headD []) :: r.tail

/-- JS `String.prototype.padStart(n, c)`. -/
def padStart (n : Nat) (c : Char) (s : JStr) : JStr :=
  List.replicate (n - s.length) c ++ s

/-- Decimal digit character for a value below ten. -/
def digitChar (n : Nat) : Char := Char.ofNat (48 + n)

/-- Fuel-driven decimal printer worker. -/
def natDigitsGo : Nat → Nat → JStr
  | 0, _ => []
  | fuel + 1, n =>
    if n < 10 then [digitChar n]
    else natDigitsGo fuel (n / 10) ++ [digitChar (n % 10)]

/-- JS `Number.prototype.toString()` for the nonnegative integers appearing in
the source (decimal, no sign, no exponent). -/
def natDigits (n : Nat) : JStr := natDigitsGo (n + 1) n

/-- Numeric value of a digit string (the exact value that JS
`Number(digitString)` denotes before floating-point rounding). -/
def natFromDigits (ds : JStr) : Nat :=
  ds.foldl (fun n c => n * 10 + (c.toNat - 48)) 0

/-- JS `Number(digitString)` overflows to `Infinity` exactly when the denoted
integer is at least `2^1024 - 2^970` (the IEEE-754 double rounding boundary);
for such digit strings `Number.isFinite` is false. -/
def jsNumberOverflows (n : Nat) : Bool := decide (2 ^ 1024 - 2 ^ 970 ≤ n)

/-- Sign-valued string comparison.  Models `String.prototype.localeCompare` on
the lowercase-ASCII app names appearing in the catalog, where the default
collation agrees with code-point order; only the sign of the result is ever
used by the source. -/
def jsCompareStrings : JStr → JStr → Int
  | [], [] => 0
  | [], _ :: _ => -1
  | _ :: _, [] => 1
  | a :: as, b :: bs =>
    if a < b then -1 else if b < a then 1 else jsCompareStrings as bs

/-! ### POSIX path helpers (`node:path`, posix flavour)

The workshop app resolves paths with `path.join`, `path.basename`,
`path.dirname` and `path.isAbsolute`.  We model the POSIX behaviour of these
library functions on the path shapes the engine produces (no trailing
slashes are preserved by our `normalizePath`; the inputs appearing in the
claims never carry one). -/

/-- `path.isAbsolute` (POSIX): the path starts with a slash. -/
def isAbsolute (p : JStr) : Bool := p.head? = some pathSep

/-- Removes trailing slashes, as `basename`/`dirname` do before searching for
the last separator. -/
def stripTrailingSlashes (p : JStr) : JStr :=
  (p.reverse.dropWhile (· = pathSep)).reverse

/-- `path.basename` (POSIX): the last nonempty path segment, or empty. -/
def basename (p : JStr) : JStr :=
  ((splitOnChar pathSep (stripTrailingSlashes p)).filter (· ≠ [])).getLastD []

/-- `path.dirname` (POSIX). -/
def dirname (p : JStr) : JStr :=
  let q := stripTrailingSlashes p
  let parts := splitOnChar pathSep q
  if parts.length ≤ 1 then (if p.head? = some pathSep then [pathSep] else ['.'])
  else
    let body := List.intercalate [pathSep] parts.dropLast
    if body = [] then [pathSep] else body

/-- Stack-based resolution of `.` and `..` segments, as performed by
`path.posix.normalize`; the first argument records whether the whole path is
absolute (a leading `..` disappears on absolute paths and is kept on relative
ones). -/
def normParts (isAbs : Bool) : List JStr → List JStr → List JStr
  | stack, [] => stack.reverse
  | stack, s :: rest =>
    if s = [] ∨ s = ['.'] then normParts isAbs stack rest
    else if s = ['.', '.'] then
      match stack with
      | [] => if isAbs then normParts isAbs [] rest else normParts isAbs [s] rest
      | t :: st =>
        if t = ['.', '.'] then normParts isAbs (s :: t :: st) rest
        else normParts isAbs st rest
    else normParts isAbs (s :: stack) rest

/-- `path.posix.normalize`, except that a trailing slash is not preserved
(none of the paths the engine joins has one). -/
def normalizePath (p : JStr) : JStr :=
  let isAbs := isAbsolute p
  let parts := normParts isAbs [] (splitOnChar pathSep p)
  let body := List.intercalate [pathSep] parts
  if isAbs then pathSep :: body else if body = [] then ['.'] else body

/-- `path.posix.join` of two parts, the only arity the engine uses. -/
def pathJoin (a b : JStr) : JStr :=
  if a = [] ∧ b = [] then ['.']
  else if a = [] then normalizePath b
  else if b = [] then normalizePath a
  else normalizePath (a ++ pathSep :: b)

/-! ### Data model

One record type models all four app variants of the TypeScript tagged union
(`ProblemApp | SolutionApp | ExampleApp | PlaygroundApp`); the `type` field is
the discriminant, exactly as in the duck-typed source.  Fields that no claim
mentions (`title`, `test`, `dev` descriptors, compiled MDX) are omitted;
`portNumber` records the deterministic port each builder computes and passes
to `getDevInfo`.  `exerciseNumber`/`stepNumber` are only meaningful on
problem/solution apps (zero elsewhere, mirroring `undefined` in the source,
which the comparator never reads for other variants). -/

inductive AppType where
  | problem
  | solution
  | example
  | playground
deriving DecidableEq, Repr

inductive StepType where
  | problem
  | solution
deriving DecidableEq, Repr

structure MApp where
  name : JStr
  type : AppType
  exerciseNumber : Nat
  stepNumber : Nat
  portNumber : Nat
  solutionName : Option JStr
  problemName : Option JStr
  appName : Option JStr
  dirName : JStr
  fullPath : JStr
deriving DecidableEq, Repr

/-- `isPlaygroundApp` (the duck-typed shape check always succeeds on values
built by the engine, so only the tag matters). -/
def isPlaygroundApp (a : MApp) : Bool := a.type = AppType.playground

/-- `isExampleApp`. -/
def isExampleApp (a : MApp) : Bool := a.type = AppType.example

/-- `isProblemApp`. -/
def isProblemApp (a : MApp) : Bool := a.type = AppType.problem

/-- `isSolutionApp`. -/
def isSolutionApp (a : MApp) : Bool := a.type = AppType.solution

/-! ### Path/identity resolver (`getAppName`, `getFullPathFromAppName`) -/

/-- The reserved delimiter token. -/
def sepToken : JStr := js "__sep__"

/-- `getAppName`: strips the first occurrence of `workshopRoot + path.sep`
(JS `String.replace` with a string pattern replaces the first occurrence),
then replaces each separator by the token via split/join. -/
def getAppName (root fullPath : JStr) : JStr :=
  let relativePath := replaceFirst (root ++ [pathSep]) [] fullPath
  List.intercalate sepToken (splitOnChar pathSep relativePath)

/-- `getFullPathFromAppName`: replaces every token occurrence by the
separator (`String.replaceAll`) and joins onto the workshop root. -/
def getFullPathFromAppName (root appName : JStr) : JStr :=
  pathJoin root (replaceAll sepToken [pathSep] appName)

/-! ### Directory classifier (`getAppDirInfo`, `extractExerciseNumber`) -/

/-- JS regex `.` (no `s` flag) refuses line terminators. -/
def isLineTerminator (c : Char) : Bool :=
  c = '\n' ∨ c = '\r' ∨ c = Char.ofNat 0x2028 ∨ c = Char.ofNat 0x2029

structure AppDirInfo where
  stepNumber : Nat
  type : StepType
  subtitle : Option JStr
deriving DecidableEq, Repr

/-- The match of `/^(?<stepNumber>\d+)\.(problem|solution)(\.(?<subtitle>.*))?$/`
against a directory name: returns the digit string, the alternative taken and
the optional subtitle group.  `\d+` is forced to be maximal because the next
regex atom is a literal dot, and `$` only matches at the very end (JS). -/
def matchStepDir (appDir : JStr) : Option (JStr × StepType × Option JStr) :=
  let ds := appDir.takeWhile Char.isDigit
  let rest := appDir.drop ds.length
  if ds = [] then none
  else
    match rest with
    | '.' :: afterDot =>
      let tryKeyword : JStr → StepType → Option (JStr × StepType × Option JStr) :=
        fun kw ty =>
          if kw.isPrefixOf afterDot then
            match afterDot.drop kw.length with
            | [] => some (ds, ty, none)
            | '.' :: sub =>
              if sub.any isLineTerminator then none else some (ds, ty, some sub)
            | _ => none
          else none
      match tryKeyword (js "problem") StepType.problem with
      | some r => some r
      | none => tryKeyword (js "solution") StepType.solution
    | _ => none

/-- The error message of the classifier throw (interpolated details elided). -/
def stepNumberError : JStr := js "Cannot identify the stepNumber for app directory"

/-- `getAppDirInfo`: classifies a step directory name.  A non-matching name
is logged and yields `null` (`Except.ok none`); a matching name whose digit
string denotes zero (JS falsiness of the parsed number) or overflows the
double range (failing `Number.isFinite`) throws (`Except.error`); otherwise
the step record is returned. -/
def getAppDirInfo (appDir : JStr) : Except JStr (Option AppDirInfo) :=
  match matchStepDir appDir with
  | none => Except.ok none
  | some (ds, ty, sub) =>
    let stepNumber := natFromDigits ds
    if stepNumber = 0 ∨ jsNumberOverflows stepNumber then Except.error stepNumberError
    else Except.ok (some ⟨stepNumber, ty, sub⟩)

/-- `extractExerciseNumber`: the regex `/^(?<number>\d+)\./` applied to an
exercise directory name; the captured digit string is always truthy, so the
parsed number is returned whenever the regex matches (including zero). -/
def extractExerciseNumber (dir : JStr) : Option Nat :=
  let ds := dir.takeWhile Char.isDigit
  let rest := dir.drop ds.length
  if ds = [] then none
  else match rest with
    | '.' :: _ => some (natFromDigits ds)
    | _ => none

/-! ### Staleness tracker (`modifiedTimes`, `setModifiedTimesForDir`,
`getForceFreshForDir`) -/

/-- The process-wide `modified_times` map, modelled extensionally. -/
def TimeMap := JStr → Option Nat

/-- `setModifiedTimesForDir`; `Date.now()` is passed explicitly as `now`. -/
def setModifiedTimesForDir (now : Nat) (m : TimeMap) (dir : JStr) : TimeMap :=
  fun d => if d = dir then some now else m d

/-- Cache entry metadata as stored by `cachified` (`metadata.createdTime`). -/
structure MCacheEntry (α : Type) where
  value : α
  createdTime : Nat
deriving Repr

/-- The error message of the non-absolute-path throw (details elided). -/
def forceFreshPathError : JStr := js "Trying to get force fresh for non-absolute path"

/-- `getForceFreshForDir`: throws on a non-absolute directory; `true` for an
absent cache entry; otherwise `true` exactly when the recorded modification
time is truthy (nonzero) and newer than the entry creation time, and
`undefined` (`none`) otherwise. -/
def getForceFreshForDir (m : TimeMap) (dir : JStr) (entry? : Option (MCacheEntry α)) :
    Except JStr (Option Bool) :=
  if isAbsolute dir = false then Except.error forceFreshPathError
  else
    match entry? with
    | none => Except.ok (some true)
    | some entry =>
      match m dir with
      | none => Except.ok none
      | some t =>
        if t = 0 then Except.ok none
        else if entry.createdTime < t then Except.ok (some true) else Except.ok none

/-- Modelled from the spec: the repository delegates memoization to the
external `cachified` library, whose contract section 4.3 of the spec states;
only the force-fresh decision is needed by the claims.  A fresh compute is
performed when the force-fresh flag is set (an `undefined` flag counts as
unset), when no entry exists, or when the entry has aged past `ttl + swr`. -/
def cachifiedComputesFresh (forceFresh : Option Bool) (entry? : Option (MCacheEntry α))
    (now ttl swr : Nat) : Bool :=
  match entry? with
  | none => true
  | some entry => forceFresh.getD false || decide (entry.createdTime + ttl + swr < now)

/-! ### Scan environment

The builders read the filesystem (`fs.promises.readdir`), the persisted
playground pointer (`getPlaygroundAppName`) and glob results.  A `ScanEnv`
packages those inputs so each builder is the pure function of its directory
path that the source async function computes.  `fuel` bounds the pointer
chasing of `findSolutionDir`/`findProblemDir`, which genuinely recurse
through the playground pointer in the source (and would not terminate if the
pointer named a path itself ending in `playground`). -/

structure ScanEnv where
  root : JStr
  readdir : JStr → List JStr
  playgroundAppName? : Option JStr
  playgroundExists : Bool
  problemDirs : List JStr
  solutionDirs : List JStr
  exampleDirs : List JStr
  fuel : Nat

/-- `findSolutionDir`: for a `*.problem*` directory, pads the step number to
two digits and returns the first sibling starting with `NN.solution`; for a
path ending in `playground`, follows the persisted pointer and retries. -/
def findSolutionDir (env : ScanEnv) : Nat → JStr → Except JStr (Option JStr)
  | fuel, fullPath =>
    let dirName := basename fullPath
    if hasSubstr (js ".problem") dirName then
      match getAppDirInfo dirName with
      | Except.error e => Except.error e
      | Except.ok none => Except.ok none
      | Except.ok (some info) =>
        let paddedStepNumber := padStart 2 '0' (natDigits info.stepNumber)
        let parentDir := dirname fullPath
        let siblingDirs := env.readdir parentDir
        match siblingDirs.find? (fun dir => (paddedStepNumber ++ js ".solution").isPrefixOf dir) with
        | some solutionDir => Except.ok (some (pathJoin parentDir solutionDir))
        | none => Except.ok none
    else if (js "playground").isSuffixOf fullPath then
      match env.playgroundAppName? with
      | some appName =>
        match fuel with
        | 0 => Except.error (js "pointer cycle")
        | fuel' + 1 => findSolutionDir env fuel' (getFullPathFromAppName env.root appName)
      | none => Except.ok none
    else Except.ok none

/-- `findProblemDir`: the mirror search from a `*.solution*` directory, but
with a different predicate: the first sibling that ends with `problem` and
contains the padded step number anywhere. -/
def findProblemDir (env : ScanEnv) : Nat → JStr → Except JStr (Option JStr)
  | fuel, fullPath =>
    let dirName := basename fullPath
    if hasSubstr (js ".solution") dirName then
      match getAppDirInfo dirName with
      | Except.error e => Except.error e
      | Except.ok none => Except.ok none
      | Except.ok (some info) =>
        let paddedStepNumber := padStart 2 '0' (natDigits info.stepNumber)
        let parentDir := dirname fullPath
        let siblingDirs := env.readdir parentDir
        match siblingDirs.find?
            (fun dir => (js "problem").isSuffixOf dir && hasSubstr paddedStepNumber dir) with
        | some problemDir => Except.ok (some (pathJoin parentDir problemDir))
        | none => Except.ok none
    else if (js "playground").isSuffixOf fullPath then
      match env.playgroundAppName? with
      | some appName =>
        match fuel with
        | 0 => Except.error (js "pointer cycle")
        | fuel' + 1 => findProblemDir env fuel' (getFullPathFromAppName env.root appName)
      | none => Except.ok none
    else Except.ok none

/-! ### App builders -/

/-- The problem-app port formula of `getProblemAppFromPath`. -/
def problemPortNumber (exerciseNumber stepNumber : Nat) : Nat :=
  6000 + (exerciseNumber - 1) * 10 + stepNumber

/-- The solution-app port formula of `getSolutionAppFromPath`. -/
def solutionPortNumber (exerciseNumber stepNumber : Nat) : Nat :=
  7000 + (exerciseNumber - 1) * 10 + stepNumber

/-- The example-app port formula of `getExampleAppFromPath`. -/
def examplePortNumber (index : Nat) : Nat := 8000 + index

/-- The fixed playground port of `getPlaygroundApp`. -/
def playgroundPortNumber : Nat := 4000

/-- `getProblemAppFromPath`: parses the exercise number from the parent
directory name (falsy values bail out with `null`), classifies the step
directory (whose throw propagates out of the builder), computes the port and
the solution back-reference, and assembles the record. -/
def getProblemAppFromPath (env : ScanEnv) (fullPath : JStr) :
    Except JStr (Option MApp) :=
  let dirName := basename fullPath
  let parentDirName := basename (dirname fullPath)
  match extractExerciseNumber parentDirName with
  | none => Except.ok none
  | some exerciseNumber =>
    if exerciseNumber = 0 then Except.ok none
    else
      let name := getAppName env.root fullPath
      match getAppDirInfo dirName with
      | Except.error e => Except.error e
      | Except.ok none => Except.ok none
      | Except.ok (some info) =>
        let portNumber := problemPortNumber exerciseNumber info.stepNumber
        match findSolutionDir env env.fuel fullPath with
        | Except.error e => Except.error e
        | Except.ok solutionDir? =>
          let solutionName := solutionDir?.map (getAppName env.root)
          Except.ok (some
            { name := name
              type := AppType.problem
              exerciseNumber := exerciseNumber
              stepNumber := info.stepNumber
              portNumber := portNumber
              solutionName := solutionName
              problemName := none
              appName := none
              dirName := dirName
              fullPath := fullPath })

/-- `getSolutionAppFromPath`: the mirror builder for solution apps. -/
def getSolutionAppFromPath (env : ScanEnv) (fullPath : JStr) :
    Except JStr (Option MApp) :=
  let dirName := basename fullPath
  let parentDirName := basename (dirname fullPath)
  match extractExerciseNumber parentDirName with
  | none => Except.ok none
  | some exerciseNumber =>
    if exerciseNumber = 0 then Except.ok none
    else
      let name := getAppName env.root fullPath
      match getAppDirInfo dirName with
      | Except.error e => Except.error e
      | Except.ok none => Except.ok none
      | Except.ok (some info) =>
        let portNumber := solutionPortNumber exerciseNumber info.stepNumber
        match findProblemDir env env.fuel fullPath with
        | Except.error e => Except.error e
        | Except.ok problemDir? =>
          let problemName := problemDir?.map (getAppName env.root)
          Except.ok (some
            { name := name
              type := AppType.solution
              exerciseNumber := exerciseNumber
              stepNumber := info.stepNumber
              portNumber := portNumber
              solutionName := none
              problemName := problemName
              appName := none
              dirName := dirName
              fullPath := fullPath })

/-- `getExampleAppFromPath`: example apps carry no exercise metadata; the
port comes from the positional index in the examples directory listing. -/
def getExampleAppFromPath (env : ScanEnv) (fullPath : JStr) (index : Nat) :
    Except JStr (Option MApp) :=
  Except.ok (some
    { name := getAppName env.root fullPath
      type := AppType.example
      exerciseNumber := 0
      stepNumber := 0
      portNumber := examplePortNumber index
      solutionName := none
      problemName := none
      appName := none
      dirName := basename fullPath
      fullPath := fullPath })

/-- `getPlaygroundApp`: `null` when the playground directory does not exist
or no pointer is persisted; otherwise the single playground record for the
fixed `playground` directory under the workshop root. -/
def getPlaygroundApp (env : ScanEnv) : Option MApp :=
  let playgroundDir := pathJoin env.root (js "playground")
  if env.playgroundExists = false then none
  else
    match env.playgroundAppName? with
    | none => none
    | some appName =>
      some
        { name := getAppName env.root playgroundDir
          type := AppType.playground
          exerciseNumber := 0
          stepNumber := 0
          portNumber := playgroundPortNumber
          solutionName := none
          problemName := none
          appName := some appName
          dirName := basename playgroundDir
          fullPath := playgroundDir }

/-- The per-directory scan loop shared by `getProblemApps`, `getSolutionApps`
and `getExampleApps`: each directory is built through a
`.catch(error => null)` boundary, and only non-null results are pushed. -/
def buildLoop (build : JStr → Except JStr (Option MApp)) : List JStr → List MApp
  | [] => []
  | d :: rest =>
    match build d with
    | Except.error _ => buildLoop build rest
    | Except.ok none => buildLoop build rest
    | Except.ok (some a) => a :: buildLoop build rest

/-- `getProblemApps` over the glob results for `**/*problem*`. -/
def getProblemApps (env : ScanEnv) : List MApp :=
  buildLoop (getProblemAppFromPath env) env.problemDirs

/-- `getSolutionApps` over the glob results for `**/*solution*`. -/
def getSolutionApps (env : ScanEnv) : List MApp :=
  buildLoop (getSolutionAppFromPath env) env.solutionDirs

/-- `getExampleApps`: the index passed to the builder is
`exampleDirs.indexOf(exampleDir)`. -/
def getExampleApps (env : ScanEnv) : List MApp :=
  buildLoop (fun d => getExampleAppFromPath env d (env.exampleDirs.indexOf d))
    env.exampleDirs

/-! ### Catalog assembler (`getApps`) -/

/-- The sort comparator of `getApps`, translated branch for branch (early
returns become nested conditionals). -/
def cmpApps (a b : MApp) : Int :=
  if isPlaygroundApp a then
    if isPlaygroundApp b then jsCompareStrings a.name b.name else 1
  else if isPlaygroundApp b then 1
  else if isExampleApp a then
    if isExampleApp b then jsCompareStrings a.name b.name else 1
  else if isExampleApp b then -1
  else if a.type = b.type then
    if a.exerciseNumber = b.exerciseNumber then
      (a.stepNumber : Int) - (b.stepNumber : Int)
    else (a.exerciseNumber : Int) - (b.exerciseNumber : Int)
  else if isProblemApp a then
    if a.exerciseNumber = b.exerciseNumber then
      if a.stepNumber ≤ b.stepNumber then 1 else -1
    else if a.exerciseNumber ≤ b.exerciseNumber then 1 else -1
  else if isSolutionApp a then
    if a.exerciseNumber = b.exerciseNumber then
      if a.stepNumber < b.stepNumber then -1 else 1
    else if a.exerciseNumber < b.exerciseNumber then -1 else 1
  else 0

/-- Insertion of one element into a sorted list. -/
def insertSorted (le : MApp → MApp → Bool) (x : MApp) : List MApp → List MApp
  | [] => [x]
  | y :: ys => if le x y then x :: y :: ys else y :: insertSorted le x ys

/-- Insertion sort. -/
def insertionSort (le : MApp → MApp → Bool) : List MApp → List MApp
  | [] => []
  | x :: xs => insertSorted le x (insertionSort le xs)

/-- `Array.prototype.sort` with the `getApps` comparator, modelled as a
comparison sort.  The comparator is not antisymmetric (see the claim C1
analysis), so ECMAScript leaves the resulting order implementation-defined;
no theorem below depends on anything beyond the permutation property. -/
def sortApps (l : List MApp) : List MApp :=
  insertionSort (fun a b => cmpApps a b ≤ 0) l

/-- The fresh-value computation of `getApps`: concatenates
`[playgroundApp, ...problemApps, ...solutionApps, ...exampleApps]`, filters
out `null`, and sorts. -/
def getAppsFresh (env : ScanEnv) : List MApp :=
  sortApps
    ((match getPlaygroundApp env with
      | some p => [p]
      | none => []) ++ getProblemApps env ++ getSolutionApps env ++ getExampleApps env)

/-! ### Playground sync prune step (`setPlayground`, lines 1003-1022)

`getFiles` returns the glob file list of a directory relative to it (build
output excluded); the prune deletes from the destination every file whose
relative path is absent from the source listing.  A directory content is a
finite list of distinct relative paths; deleting a file keeps every other
path. -/

/-- `fsExtra.remove` on one relative path of a directory listing. -/
def removeFile (files : List JStr) (f : JStr) : List JStr :=
  files.filter (fun g => g ≠ f)

/-- The prune loop of `setPlayground`: computes
`filesToDelete = destFiles.filter(f => !srcFiles.includes(f))` and removes
each orphan from the destination. -/
def prunePlayground (srcFiles destFiles : List JStr) : List JStr :=
  let filesToDelete := destFiles.filter (fun f => !(srcFiles.contains f))
  filesToDelete.foldl removeFile destFiles

/-! ### Concrete fixtures used by claim instances and witnesses -/

/-- A minimal app record for comparator evaluations (the fields the
comparator never reads on the given variant are inert). -/
def mkApp (name : String) (type : AppType) (e s : Nat) : MApp :=
  { name := js name, type := type, exerciseNumber := e, stepNumber := s,
    portNumber := 0, solutionName := none, problemName := none, appName := none,
    dirName := [], fullPath := [] }

/-- The problem app of the catalog-ordering example (exercise 1, step 1). -/
def fixtureProblem11 : MApp :=
  mkApp "exercises__sep__01.ex__sep__01.problem" AppType.problem 1 1

/-- The solution app of the catalog-ordering example (exercise 1, step 2). -/
def fixtureSolution12 : MApp :=
  mkApp "exercises__sep__01.ex__sep__02.solution" AppType.solution 1 2

/-- Example app named `a`. -/
def fixtureExampleA : MApp := mkApp "examples__sep__a" AppType.example 0 0

/-- Example app named `b`. -/
def fixtureExampleB : MApp := mkApp "examples__sep__b" AppType.example 0 0

/-- The playground app of the catalog-ordering example. -/
def fixturePlayground : MApp := mkApp "playground" AppType.playground 0 0

/-- A workshop with one exercise whose problem and solution both carry a
subtitle (`01.problem.foo` / `01.solution.foo`). -/
def subtitledExercisesEnv : ScanEnv :=
  { root := js "/ws"
    readdir := fun d =>
      if d = js "/ws/exercises/01.ex" then [js "01.problem.foo", js "01.solution.foo"] else []
    playgroundAppName? := none
    playgroundExists := false
    problemDirs := [js "/ws/exercises/01.ex/01.problem.foo"]
    solutionDirs := [js "/ws/exercises/01.ex/01.solution.foo"]
    exampleDirs := []
    fuel := 1 }

/-- A workshop with one exercise whose problem directory has no subtitle. -/
def plainExercisesEnv : ScanEnv :=
  { root := js "/ws"
    readdir := fun d =>
      if d = js "/ws/exercises/01.ex" then [js "01.problem", js "01.solution.foo"] else []
    playgroundAppName? := none
    playgroundExists := false
    problemDirs := [js "/ws/exercises/01.ex/01.problem"]
    solutionDirs := [js "/ws/exercises/01.ex/01.solution.foo"]
    exampleDirs := []
    fuel := 1 }

/-- A workshop whose two problem directories receive the same port:
exercise 1 step 11 and exercise 2 step 1 both map to port 6011. -/
def collidingPortsEnv : ScanEnv :=
  { root := js "/ws"
    readdir := fun _ => []
    playgroundAppName? := none
    playgroundExists := false
    problemDirs := [js "/ws/exercises/01.a/11.problem", js "/ws/exercises/02.b/01.problem"]
    solutionDirs := []
    exampleDirs := []
    fuel := 1 }

/-- A build function that fails on the directory named `bad` and otherwise
produces a fixed app, exercising the per-app catch boundary. -/
def failingBuild : JStr → Except JStr (Option MApp) :=
  fun d =>
    if d = js "bad" then Except.error (js "boom")
    else Except.ok (some (mkApp "survivor" AppType.problem 1 1))

/-- The problem app built from `/ws/exercises/02.b/01.problem` in
`collidingPortsEnv`. -/
def collidedProblemApp : MApp :=
  { name := js "exercises__sep__02.b__sep__01.problem"
    type := AppType.problem
    exerciseNumber := 2
    stepNumber := 1
    portNumber := 6011
    solutionName := none
    problemName := none
    appName := none
    dirName := js "01.problem"
    fullPath := js "/ws/exercises/02.b/01.problem" }

/-- The staleness map with no recorded directory. -/
def emptyTimeMap : TimeMap := fun _ => none

/-- A cache entry created at time 10. -/
def entryAt10 : MCacheEntry Nat := { value := 0, createdTime := 10 }

/-! ### Helper lemmas about the string operations -/

theorem intercalate_nil (s : JStr) : List.intercalate s ([] : List JStr) = [] := by
  simp [List.intercalate]

theorem intercalate_single (s a : JStr) : List.intercalate s [a] = a := by
  simp [List.intercalate]

theorem intercalate_cons2 (s a b : JStr) (l : List JStr) :
    List.intercalate s (a :: b :: l) = a ++ s ++ List.intercalate s (b :: l) := by
  simp [List.intercalate, List.intersperse]

theorem splitOnChar_ne_nil (c : Char) (s : JStr) : splitOnChar c s ≠ [] := by
  cases s with
  | nil => simp [splitOnChar]
  | cons x xs =>
    simp only [splitOnChar]
    by_cases hx : x = c <;> simp [hx]

theorem splitOnChar_append_cons (c : Char) (a b : JStr) :
    splitOnChar c (a ++ c :: b) = splitOnChar c a ++ splitOnChar c b := by
  induction a with
  | nil =>
    simp [splitOnChar]
  | cons x a ih =>
    cases ha : splitOnChar c a with
    | nil => exact absurd ha (splitOnChar_ne_nil c a)
    | cons hd tl =>
      simp only [List.cons_append, splitOnChar, List.append_eq]
      rw [ih, ha]
      by_cases hx : x = c <;> simp [hx]

theorem splitOnChar_no_sep (c : Char) (s : JStr) (h : c ∉ s) : splitOnChar c s = [s] := by
  induction s with
  | nil => rfl
  | cons x xs ih =>
    have hx : x ≠ c := fun hx => h (hx ▸ List.mem_cons_self x xs)
    have hxs : c ∉ xs := fun hc => h (List.mem_cons_of_mem x hc)
    simp [splitOnChar, ih hxs, hx]

theorem splitOnChar_intercalate (c : Char) (segs : List JStr) (hne : segs ≠ [])
    (h : ∀ seg ∈ segs, c ∉ seg) :
    splitOnChar c (List.intercalate [c] segs) = segs := by
  induction segs with
  | nil => exact absurd rfl hne
  | cons a l ih =>
    cases l with
    | nil =>
      rw [intercalate_single]
      exact splitOnChar_no_sep c a (h a (List.mem_cons_self a []))
    | cons b l' =>
      rw [intercalate_cons2]
      have ha : c ∉ a := h a (List.mem_cons_self a _)
      have : a ++ [c] ++ List.intercalate [c] (b :: l') =
          a ++ c :: List.intercalate [c] (b :: l') := by simp
      rw [this, splitOnChar_append_cons, splitOnChar_no_sep c a ha,
        ih (by simp) (fun seg hs => h seg (List.mem_cons_of_mem a hs))]
      rfl

theorem intercalate_splitOnChar (c : Char) (p : JStr) :
    List.intercalate [c] (splitOnChar c p) = p := by
  induction p with
  | nil => simp [splitOnChar, intercalate_single]
  | cons x xs ih =>
    simp only [splitOnChar]
    cases h : splitOnChar c xs with
    | nil => exact absurd h (splitOnChar_ne_nil c xs)
    | cons hd tl =>
      rw [h] at ih
      by_cases hx : x = c
      · subst hx
        rw [if_pos rfl, intercalate_cons2]
        simp [ih]
      · rw [if_neg hx]
        simp only [List.headD_cons, List.tail_cons]
        cases tl with
        | nil =>
          rw [intercalate_single] at ih
          simp [intercalate_single, ih]
        | cons t ts =>
          rw [intercalate_cons2] at ih
          rw [intercalate_cons2]
          simp only [List.cons_append, List.nil_append, List.append_assoc] at ih ⊢
          simp [ih]

theorem intercalate_append_ne (s : JStr) (a b : List JStr) (ha : a ≠ []) (hb : b ≠ []) :
    List.intercalate s (a ++ b) = List.intercalate s a ++ s ++ List.intercalate s b := by
  induction a with
  | nil => exact absurd rfl ha
  | cons x a ih =>
    cases a with
    | nil =>
      cases b with
      | nil => exact absurd rfl hb
      | cons y b' => simp [intercalate_single, intercalate_cons2]
    | cons x' a' =>
      have h1 : (x :: x' :: a') ++ b = x :: x' :: (a' ++ b) := by simp
      rw [h1, intercalate_cons2]
      have h2 : x' :: (a' ++ b) = (x' :: a') ++ b := rfl
      rw [h2, ih (by simp), intercalate_cons2]
      simp

theorem intercalate_ne_nil (s : JStr) (segs : List JStr) (hne : segs ≠ [])
    (h : ∀ seg ∈ segs, seg ≠ []) : List.intercalate s segs ≠ [] := by
  cases segs with
  | nil => exact absurd rfl hne
  | cons a l =>
    cases l with
    | nil =>
      rw [intercalate_single]
      exact h a (List.mem_cons_self a [])
    | cons b l' =>
      rw [intercalate_cons2]
      have : a ≠ [] := h a (List.mem_cons_self a _)
      cases a with
      | nil => exact absurd rfl this
      | cons x xs => simp

theorem replaceFirst_self (pat repl x : JStr) (h : pat ≠ []) :
    replaceFirst pat repl (pat ++ x) = repl ++ x := by
  cases pat with
  | nil => exact absurd rfl h
  | cons c p =>
    show replaceFirst (c :: p) repl (c :: (p ++ x)) = repl ++ x
    have hpre : (c :: p).isPrefixOf (c :: p ++ x) := by
      rw [List.isPrefixOf_iff_prefix]
      exact List.prefix_append (c :: p) x
    simp only [replaceFirst, List.cons_append, hpre, if_pos]
    simp [List.drop_left]

theorem prefix_of_append_left {a u v : JStr} (h : a <+: u ++ v)
    (hlen : a.length ≤ u.length) : a <+: u := by
  rw [List.prefix_iff_eq_take] at h
  rw [List.take_append_of_le_length hlen] at h
  rw [h]
  exact List.take_prefix a.length u

theorem prefix_append_split {a u v : JStr} (h : a <+: u ++ v)
    (hlen : u.length ≤ a.length) : u <+: a ∧ a.drop u.length <+: v := by
  rw [List.prefix_iff_eq_take] at h
  have hk : a.length = u.length + (a.length - u.length) := by omega
  rw [hk, List.take_append] at h
  constructor
  · rw [h]; exact List.prefix_append u _
  · rw [h, List.drop_left]
    exact List.take_prefix _ v

theorem hasSubstr_iff_exists (pat s : JStr) :
    hasSubstr pat s = true ↔ ∃ i, pat.isPrefixOf (s.drop i) = true := by
  induction s with
  | nil =>
    simp only [hasSubstr, List.drop_nil]
    constructor
    · intro h
      exact ⟨0, by cases pat <;> simp_all [List.isPrefixOf]⟩
    · rintro ⟨i, h⟩
      cases pat <;> simp_all [List.isPrefixOf]
  | cons c rest ih =>
    simp only [hasSubstr, Bool.or_eq_true]
    constructor
    · rintro (h | h)
      · exact ⟨0, h⟩
      · obtain ⟨i, hi⟩ := ih.mp h
        exact ⟨i + 1, by simpa using hi⟩
    · rintro ⟨i, hi⟩
      cases i with
      | zero => exact Or.inl (by simpa using hi)
      | succ j => exact Or.inr (ih.mpr ⟨j, by simpa using hi⟩)

theorem hasSubstr_nil_pat (s : JStr) : hasSubstr [] s = true := by
  cases s <;> simp [hasSubstr, List.isPrefixOf]

theorem hasSubstr_append_both (pat x y : JStr) :
    hasSubstr pat (x ++ (pat ++ y)) = true := by
  induction x with
  | nil =>
    cases pat with
    | nil => simp [hasSubstr_nil_pat]
    | cons c p =>
      simp only [List.nil_append, hasSubstr, Bool.or_eq_true]
      exact Or.inl (List.isPrefixOf_iff_prefix.mpr (List.prefix_append (c :: p) y))
  | cons c x ih =>
    simp only [List.cons_append, hasSubstr, Bool.or_eq_true]
    exact Or.inr ih

theorem hasSubstr_append_self (pat x : JStr) : hasSubstr pat (x ++ pat) = true := by
  have := hasSubstr_append_both pat x []
  simpa using this

theorem hasSubstr_of_drop {pat s : JStr} {i : Nat} (h : pat <+: s.drop i) :
    hasSubstr pat s = true :=
  (hasSubstr_iff_exists pat s).mpr ⟨i, List.isPrefixOf_iff_prefix.mpr h⟩

theorem sepToken_spine : js "__sep" <+: sepToken := by decide

/-- The border analysis behind the round-trip proof: a segment free of the
substring `__sep` admits no token match starting strictly inside it, even
when the token follows immediately (the token has only the trivial borders
`_` and `__`, so a straddling match would put `__sep` inside the segment). -/
theorem noMatch_in_segment {seg : JStr} (hseg : hasSubstr (js "__sep") seg = false)
    (t : JStr) : ∀ i < seg.length, sepToken.isPrefixOf ((seg ++ (sepToken ++ t)).drop i) = false := by
  intro i hi
  by_contra hcon
  rw [Bool.not_eq_false, List.isPrefixOf_iff_prefix] at hcon
  rw [List.drop_append_of_le_length (Nat.le_of_lt hi)] at hcon
  have htot : js "__sep" <+: seg.drop i ++ (sepToken ++ t) := sepToken_spine.trans hcon
  have hlen5 : (js "__sep").length = 5 := by decide
  have hulen : (seg.drop i).length = seg.length - i := List.length_drop i seg
  by_cases hcase : 5 ≤ (seg.drop i).length
  · have h5 : js "__sep" <+: seg.drop i := prefix_of_append_left htot (by omega)
    exact absurd (hasSubstr_of_drop h5) (by simp [hseg])
  · have hsplit := prefix_append_split htot (by omega)
    have hdrop2 : (js "__sep").drop (seg.drop i).length <+: sepToken := by
      refine prefix_of_append_left hsplit.2 ?_
      have h7 : sepToken.length = 7 := by decide
      have hdl : ((js "__sep").drop (seg.drop i).length).length = 5 - (seg.drop i).length := by
        rw [List.length_drop, hlen5]
      omega
    have h1 : 1 ≤ (seg.drop i).length := by omega
    have h4 : (seg.drop i).length < 5 := by omega
    set k := (seg.drop i).length with hk
    interval_cases k <;>
      exact absurd (List.isPrefixOf_iff_prefix.mpr hdrop2) (by decide)

theorem replaceAllGo_nil (pat repl : JStr) (fuel : Nat) :
    replaceAllGo pat repl fuel [] = [] := by
  cases fuel <;> rfl

theorem replaceAllGo_fuel (pat repl : JStr) (hpat : pat ≠ []) :
    ∀ (fuel₁ fuel₂ : Nat) (s : JStr), s.length ≤ fuel₁ → s.length ≤ fuel₂ →
      replaceAllGo pat repl fuel₁ s = replaceAllGo pat repl fuel₂ s := by
  intro fuel₁
  induction fuel₁ with
  | zero =>
    intro fuel₂ s h1 h2
    have hs : s = [] := List.eq_nil_of_length_eq_zero (Nat.le_zero.mp h1)
    subst hs
    rw [replaceAllGo_nil, replaceAllGo_nil]
  | succ f ih =>
    intro fuel₂ s h1 h2
    cases s with
    | nil => rw [replaceAllGo_nil, replaceAllGo_nil]
    | cons c rest =>
      cases fuel₂ with
      | zero => simp at h2
      | succ f₂ =>
        have hplen : 1 ≤ pat.length := List.length_pos.mpr hpat
        simp only [replaceAllGo]
        cases hp : pat.isPrefixOf (c :: rest) with
        | true =>
          simp only [if_pos]
          refine congrArg (repl ++ ·) (ih f₂ _ ?_ ?_) <;>
            · rw [List.length_drop]
              simp only [List.length_cons] at h1 h2 ⊢
              omega
        | false =>
          simp only [Bool.false_eq_true, if_false]
          refine congrArg (c :: ·) (ih f₂ rest ?_ ?_) <;>
            · simp only [List.length_cons] at h1 h2 ⊢
              omega

theorem replaceAllGo_no_match (pat repl : JStr) :
    ∀ (fuel : Nat) (s : JStr), (∀ i, pat.isPrefixOf (s.drop i) = false) →
      replaceAllGo pat repl fuel s = s := by
  intro fuel
  induction fuel with
  | zero => intro s h; cases s <;> rfl
  | succ f ih =>
    intro s h
    cases s with
    | nil => rfl
    | cons c rest =>
      have h0 := h 0
      simp only [List.drop_zero] at h0
      simp only [replaceAllGo, h0, Bool.false_eq_true, if_false]
      exact congrArg (c :: ·) (ih rest (fun i => by simpa using h (i + 1)))

theorem replaceAllGo_boundary (pat repl : JStr) (hpat : pat ≠ []) :
    ∀ (s t : JStr) (fuel : Nat),
      (∀ i < s.length, pat.isPrefixOf ((s ++ (pat ++ t)).drop i) = false) →
      (s ++ (pat ++ t)).length ≤ fuel →
      replaceAllGo pat repl fuel (s ++ (pat ++ t)) =
        s ++ repl ++ replaceAllGo pat repl t.length t := by
  intro s
  induction s with
  | nil =>
    intro t fuel h hf
    simp only [List.nil_append] at hf ⊢
    cases pat with
    | nil => exact absurd rfl hpat
    | cons c p =>
      cases fuel with
      | zero => simp at hf
      | succ f =>
        rw [List.cons_append]
        simp only [replaceAllGo]
        have hpre : (c :: p).isPrefixOf (c :: (p ++ t)) = true := by
          rw [List.isPrefixOf_iff_prefix, ← List.cons_append]
          exact List.prefix_append (c :: p) t
        rw [hpre]
        simp only [if_pos, List.length_cons, List.drop_succ_cons, List.drop_left]
        refine congrArg (repl ++ ·) (replaceAllGo_fuel _ repl hpat f t.length t ?_ (le_refl _))
        simp only [List.cons_append, List.length_cons, List.length_append] at hf
        omega
  | cons c s' ih =>
    intro t fuel h hf
    have h0 := h 0 (by simp)
    simp only [List.drop_zero] at h0
    cases fuel with
    | zero => simp at hf
    | succ f =>
      rw [List.cons_append]
      rw [List.cons_append] at h0
      simp only [replaceAllGo, h0, Bool.false_eq_true, if_false]
      rw [ih t f ?hshift ?hlen]
      · simp
      case hshift =>
        intro i hi
        have := h (i + 1) (by simp only [List.length_cons]; omega)
        simpa using this
      case hlen =>
        simp only [List.length_cons, List.length_append] at hf ⊢
        omega

theorem replaceAll_intercalate (segs : List JStr)
    (h : ∀ seg ∈ segs, hasSubstr (js "__sep") seg = false) :
    replaceAll sepToken [pathSep] (List.intercalate sepToken segs) =
      List.intercalate [pathSep] segs := by
  induction segs with
  | nil => rfl
  | cons seg rest ih =>
    cases rest with
    | nil =>
      rw [intercalate_single, intercalate_single]
      apply replaceAllGo_no_match
      intro i
      by_contra hcon
      rw [Bool.not_eq_false, List.isPrefixOf_iff_prefix] at hcon
      have hdrop : js "__sep" <+: seg.drop i := sepToken_spine.trans hcon
      exact absurd (hasSubstr_of_drop hdrop)
        (by simp [h seg (List.mem_cons_self _ _)])
    | cons seg₂ rest₂ =>
      have hseg : hasSubstr (js "__sep") seg = false := h seg (List.mem_cons_self _ _)
      have ih' := ih (fun x hx => h x (List.mem_cons_of_mem _ hx))
      rw [intercalate_cons2, intercalate_cons2]
      show replaceAllGo sepToken [pathSep] _ _ = _
      rw [List.append_assoc]
      rw [replaceAllGo_boundary sepToken [pathSep] (by decide) seg _ _
        (noMatch_in_segment hseg _) (le_refl _)]
      show _ ++ _ ++ replaceAll sepToken [pathSep] _ = _
      rw [ih']

theorem normParts_nice (isAbs : Bool) (parts : List JStr)
    (h : ∀ x ∈ parts, x ≠ [] ∧ x ≠ ['.'] ∧ x ≠ ['.', '.']) :
    ∀ stack, normParts isAbs stack parts = stack.reverse ++ parts := by
  induction parts with
  | nil => intro stack; simp [normParts]
  | cons s rest ih =>
    intro stack
    obtain ⟨h1, h2, h3⟩ := h s (List.mem_cons_self _ _)
    simp only [normParts, if_neg (by simp [h1, h2] : ¬(s = [] ∨ s = ['.'])), if_neg h3]
    rw [ih (fun x hx => h x (List.mem_cons_of_mem _ hx)) (s :: stack)]
    simp

theorem normalizePath_nice (rtail : JStr) (segs : List JStr) (hsegs : segs ≠ [])
    (hroot : ∀ x ∈ splitOnChar pathSep rtail, x ≠ [] ∧ x ≠ ['.'] ∧ x ≠ ['.', '.'])
    (hnice : ∀ seg ∈ segs, seg ≠ [] ∧ pathSep ∉ seg ∧ seg ≠ ['.'] ∧ seg ≠ ['.', '.']) :
    normalizePath ((pathSep :: rtail) ++ pathSep :: List.intercalate [pathSep] segs) =
      (pathSep :: rtail) ++ pathSep :: List.intercalate [pathSep] segs := by
  have hsplit_rel : splitOnChar pathSep (List.intercalate [pathSep] segs) = segs :=
    splitOnChar_intercalate _ _ hsegs (fun s hs => (hnice s hs).2.1)
  have hcons : (pathSep :: rtail) ++ pathSep :: List.intercalate [pathSep] segs
      = pathSep :: (rtail ++ pathSep :: List.intercalate [pathSep] segs) := by simp
  rw [hcons]
  have habs : isAbsolute (pathSep :: (rtail ++ pathSep :: List.intercalate [pathSep] segs)) = true := by
    simp [isAbsolute]
  simp only [normalizePath, habs, if_pos]
  have hsplit1 : splitOnChar pathSep (pathSep :: (rtail ++ pathSep :: List.intercalate [pathSep] segs))
      = [] :: (splitOnChar pathSep rtail ++ segs) := by
    have hstep : splitOnChar pathSep (pathSep :: (rtail ++ pathSep :: List.intercalate [pathSep] segs))
        = [] :: splitOnChar pathSep (rtail ++ pathSep :: List.intercalate [pathSep] segs) := by
      simp [splitOnChar]
    rw [hstep, splitOnChar_append_cons, hsplit_rel]
  rw [hsplit1]
  have hall : ∀ x ∈ splitOnChar pathSep rtail ++ segs, x ≠ [] ∧ x ≠ ['.'] ∧ x ≠ ['.', '.'] := by
    intro x hx
    rcases List.mem_append.mp hx with hx | hx
    · exact hroot x hx
    · obtain ⟨a, _, c, d⟩ := hnice x hx
      exact ⟨a, c, d⟩
  have hnp : normParts true [] ([] :: (splitOnChar pathSep rtail ++ segs))
      = splitOnChar pathSep rtail ++ segs := by
    simp only [normParts, if_pos (Or.inl rfl)]
    rw [normParts_nice true _ hall []]
    simp
  rw [hnp]
  rw [intercalate_append_ne _ _ _ (splitOnChar_ne_nil _ _) hsegs, intercalate_splitOnChar]
  simp

theorem pathJoin_nice (rtail : JStr) (segs : List JStr) (hsegs : segs ≠ [])
    (hroot : ∀ x ∈ splitOnChar pathSep rtail, x ≠ [] ∧ x ≠ ['.'] ∧ x ≠ ['.', '.'])
    (hnice : ∀ seg ∈ segs, seg ≠ [] ∧ pathSep ∉ seg ∧ seg ≠ ['.'] ∧ seg ≠ ['.', '.']) :
    pathJoin (pathSep :: rtail) (List.intercalate [pathSep] segs) =
      (pathSep :: rtail) ++ pathSep :: List.intercalate [pathSep] segs := by
  have hrel : List.intercalate [pathSep] segs ≠ [] :=
    intercalate_ne_nil _ _ hsegs (fun s hs => (hnice s hs).1)
  simp only [pathJoin]
  rw [if_neg (by simp), if_neg (by simp), if_neg hrel]
  exact normalizePath_nice rtail segs hsegs hroot hnice

theorem stripTrailingSlashes_eq_self {l : JStr} (h : l.getLast? ≠ some pathSep) :
    stripTrailingSlashes l = l := by
  unfold stripTrailingSlashes
  cases hr : l.reverse with
  | nil =>
    simp only [List.dropWhile_nil]
    rw [← hr, List.reverse_reverse]
  | cons c rest =>
    have hc : c ≠ pathSep := by
      intro hcp
      apply h
      rw [← List.head?_reverse, hr, hcp]
      rfl
    rw [List.dropWhile_cons, if_neg (by simpa using hc), ← hr, List.reverse_reverse]

theorem getLast?_append_seg {parent d : JStr} (hd : d ≠ []) :
    (parent ++ pathSep :: d).getLast? = d.getLast? := by
  rw [List.getLast?_append]
  cases hg : (pathSep :: d).getLast? with
  | none => simp at hg
  | some x =>
    have : (pathSep :: d).getLast? = d.getLast? := by
      cases d with
      | nil => exact absurd rfl hd
      | cons y ys => rw [List.getLast?_cons_cons]
    rw [this] at hg
    rw [hg]
    cases hg2 : d.getLast? with
    | none =>
      cases d with
      | nil => exact absurd rfl hd
      | cons y ys => simp [List.getLast?_eq_getLast] at hg2
    | some y => rfl

theorem getLast?_seg_ne_slash {d : JStr} (hd : d ≠ []) (hns : pathSep ∉ d) :
    d.getLast? ≠ some pathSep := by
  intro hcon
  apply hns
  have := List.getLast?_eq_getLast d hd
  rw [this] at hcon
  have hmem := List.getLast_mem hd
  simpa [Option.some_inj.mp hcon] using hmem

theorem basename_append_seg {parent d : JStr} (hd : d ≠ []) (hns : pathSep ∉ d) :
    basename (parent ++ pathSep :: d) = d := by
  unfold basename
  rw [stripTrailingSlashes_eq_self (by
    rw [getLast?_append_seg hd]
    exact getLast?_seg_ne_slash hd hns)]
  rw [splitOnChar_append_cons, splitOnChar_no_sep pathSep d hns, List.filter_append]
  have hlast : List.filter (fun x => decide (x ≠ [])) [d] = [d] := by
    simp [hd]
  rw [hlast]
  have : (List.filter (fun x => decide (x ≠ [])) (splitOnChar pathSep parent)) ++ [d]
      = (List.filter (fun x => decide (x ≠ [])) (splitOnChar pathSep parent)) ++ [d] := rfl
  rw [List.getLastD_concat]

theorem dirname_append_seg {parent d : JStr} (hd : d ≠ []) (hns : pathSep ∉ d)
    (hp : parent ≠ []) : dirname (parent ++ pathSep :: d) = parent := by
  unfold dirname
  rw [stripTrailingSlashes_eq_self (by
    rw [getLast?_append_seg hd]
    exact getLast?_seg_ne_slash hd hns)]
  dsimp only
  rw [splitOnChar_append_cons, splitOnChar_no_sep pathSep d hns]
  have hlen : (splitOnChar pathSep parent ++ [d]).length =
      (splitOnChar pathSep parent).length + 1 := by simp
  have hge : 1 ≤ (splitOnChar pathSep parent).length := by
    cases hsp : splitOnChar pathSep parent with
    | nil => exact absurd hsp (splitOnChar_ne_nil pathSep parent)
    | cons a l => simp
  rw [if_neg (by omega)]
  rw [List.dropLast_concat, intercalate_splitOnChar]
  rw [if_neg hp]

theorem find?_unique {l : List JStr} {p : JStr → Bool} {a : JStr}
    (hmem : a ∈ l) (hpa : p a = true) (huniq : ∀ x ∈ l, p x = true → x = a) :
    l.find? p = some a := by
  induction l with
  | nil => simp at hmem
  | cons x xs ih =>
    rw [List.find?_cons]
    cases hx : p x with
    | true =>
      have := huniq x (List.mem_cons_self _ _) hx
      simp [this]
    | false =>
      have hmem2 : a ∈ xs := by
        rcases List.mem_cons.mp hmem with h | h
        · subst h; rw [hpa] at hx; exact absurd hx (by simp)
        · exact h
      exact ih hmem2 (fun x hx2 hpx => huniq x (List.mem_cons_of_mem _ hx2) hpx)

theorem getProblemAppFromPath_fields {env : ScanEnv} {p : JStr} {a : MApp}
    (h : getProblemAppFromPath env p = Except.ok (some a)) :
    a.type = AppType.problem ∧
    a.portNumber = problemPortNumber a.exerciseNumber a.stepNumber := by
  unfold getProblemAppFromPath at h
  dsimp only at h
  cases hx : extractExerciseNumber (basename (dirname p)) with
  | none => rw [hx] at h; simp at h
  | some e =>
    rw [hx] at h
    dsimp only at h
    by_cases he : e = 0
    · rw [if_pos he] at h; simp at h
    · rw [if_neg he] at h
      cases hi : getAppDirInfo (basename p) with
      | error msg => rw [hi] at h; simp at h
      | ok v =>
        rw [hi] at h
        cases v with
        | none => simp at h
        | some info =>
          cases hf : findSolutionDir env env.fuel p with
          | error msg => rw [hf] at h; simp at h
          | ok sd =>
            rw [hf] at h
            simp only [Except.ok.injEq, Option.some.injEq] at h
            subst h
            exact ⟨rfl, rfl⟩

theorem getSolutionAppFromPath_fields {env : ScanEnv} {p : JStr} {a : MApp}
    (h : getSolutionAppFromPath env p = Except.ok (some a)) :
    a.type = AppType.solution ∧
    a.portNumber = solutionPortNumber a.exerciseNumber a.stepNumber := by
  unfold getSolutionAppFromPath at h
  dsimp only at h
  cases hx : extractExerciseNumber (basename (dirname p)) with
  | none => rw [hx] at h; simp at h
  | some e =>
    rw [hx] at h
    dsimp only at h
    by_cases he : e = 0
    · rw [if_pos he] at h; simp at h
    · rw [if_neg he] at h
      cases hi : getAppDirInfo (basename p) with
      | error msg => rw [hi] at h; simp at h
      | ok v =>
        rw [hi] at h
        cases v with
        | none => simp at h
        | some info =>
          cases hf : findProblemDir env env.fuel p with
          | error msg => rw [hf] at h; simp at h
          | ok pd =>
            rw [hf] at h
            simp only [Except.ok.injEq, Option.some.injEq] at h
            subst h
            exact ⟨rfl, rfl⟩

theorem getExampleAppFromPath_fields {env : ScanEnv} {p : JStr} {i : Nat} {a : MApp}
    (h : getExampleAppFromPath env p i = Except.ok (some a)) :
    a.type = AppType.example ∧ a.portNumber = examplePortNumber i := by
  unfold getExampleAppFromPath at h
  simp only [Except.ok.injEq, Option.some.injEq] at h
  subst h
  exact ⟨rfl, rfl⟩

theorem getPlaygroundApp_fields {env : ScanEnv} {a : MApp}
    (h : getPlaygroundApp env = some a) :
    a.type = AppType.playground ∧ a.portNumber = playgroundPortNumber := by
  unfold getPlaygroundApp at h
  dsimp only at h
  by_cases hex : env.playgroundExists = false
  · rw [if_pos hex] at h; simp at h
  · rw [if_neg hex] at h
    cases hn : env.playgroundAppName? with
    | none => rw [hn] at h; simp at h
    | some nm =>
      rw [hn] at h
      simp only [Option.some.injEq] at h
      subst h
      exact ⟨rfl, rfl⟩

theorem buildLoop_countP_zero {build : JStr → Except JStr (Option MApp)} {p : MApp → Bool}
    (h : ∀ d a, build d = Except.ok (some a) → p a = false) :
    ∀ dirs, List.countP p (buildLoop build dirs) = 0 := by
  intro dirs
  induction dirs with
  | nil => rfl
  | cons d rest ih =>
    cases hb : build d with
    | error e => simp only [buildLoop, hb]; exact ih
    | ok v =>
      cases v with
      | none => simp only [buildLoop, hb]; exact ih
      | some a =>
        simp only [buildLoop, hb]
        rw [List.countP_cons, h d a hb]
        simp [ih]

theorem insertSorted_perm (le : MApp → MApp → Bool) (x : MApp) (l : List MApp) :
    (insertSorted le x l).Perm (x :: l) := by
  induction l with
  | nil => exact List.Perm.refl _
  | cons y ys ih =>
    simp only [insertSorted]
    split
    · exact List.Perm.refl _
    · exact (ih.cons y).trans (List.Perm.swap x y ys)

theorem insertionSort_perm (le : MApp → MApp → Bool) (l : List MApp) :
    (insertionSort le l).Perm l := by
  induction l with
  | nil => exact List.Perm.refl _
  | cons x xs ih =>
    exact (insertSorted_perm le x (insertionSort le xs)).trans (ih.cons x)

theorem mem_foldl_removeFile (ds : List JStr) :
    ∀ (l : List JStr) (f : JStr), f ∈ ds.foldl removeFile l ↔ f ∈ l ∧ f ∉ ds := by
  induction ds with
  | nil => intro l f; simp
  | cons d rest ih =>
    intro l f
    simp only [List.foldl_cons]
    rw [ih]
    simp only [removeFile, List.mem_filter, List.mem_cons]
    constructor
    · rintro ⟨⟨hm, hne⟩, hnr⟩
      refine ⟨hm, ?_⟩
      simp only [not_or]
      exact ⟨by simpa using hne, hnr⟩
    · rintro ⟨hm, hno⟩
      simp only [not_or] at hno
      exact ⟨⟨hm, by simpa using hno.1⟩, hno.2⟩

/-! ### The claims -/

/-- Claim C1 (code bug): the sort comparator of `getApps` does not produce
the order the claim states.  Evaluated at the apps of the claim example, it
returns 1 on `(problem(1,1), solution(1,2))`, placing the problem after its
own solution, and it returns 1 in both directions on playground-versus-other
comparisons (the `isPlaygroundApp b` early return yields 1 where the stated
order requires -1), so no comparator-consistent order puts the playground
last; the claimed output `[problem(1,1), solution(1,2), example a, example b,
playground]` is not what this comparator sorts to. -/
theorem C1_comparator_contradicts_claimed_order :
    cmpApps fixtureProblem11 fixtureSolution12 = 1 ∧
    cmpApps fixtureSolution12 fixtureProblem11 = 1 ∧
    cmpApps fixturePlayground fixtureExampleA = 1 ∧
    cmpApps fixtureExampleA fixturePlayground = 1 ∧
    cmpApps fixtureProblem11 fixturePlayground = 1 ∧
    cmpApps fixturePlayground fixtureProblem11 = 1 := by
  refine ⟨rfl, rfl, rfl, rfl, rfl, rfl⟩

/-- Claim C2, counterexample: the round trip is not the identity on every
path under the workshop root; a path whose segment contains the reserved
token `__sep__` comes back with the token decoded as a separator. -/
theorem C2_roundtrip_counterexample :
    getFullPathFromAppName (js "/ws") (getAppName (js "/ws") (js "/ws/a__sep__b"))
      = js "/ws/a/b" ∧ js "/ws/a/b" ≠ js "/ws/a__sep__b" := by
  exact ⟨rfl, by decide⟩

/-- Claim C2, amended: for every workshop root `/rtail` and every normalized
relative path below it (nonempty segments, no `.` or `..`, no separator in a
segment) whose segments avoid the substring `__sep`, the name round trip
`getFullPathFromAppName ∘ getAppName` is the identity. -/
theorem C2_name_roundtrip_amended (rtail : JStr) (segs : List JStr) (hsegs : segs ≠ [])
    (hroot : ∀ x ∈ splitOnChar pathSep rtail, x ≠ [] ∧ x ≠ ['.'] ∧ x ≠ ['.', '.'])
    (hnice : ∀ seg ∈ segs, seg ≠ [] ∧ pathSep ∉ seg ∧ seg ≠ ['.'] ∧ seg ≠ ['.', '.'] ∧
      hasSubstr (js "__sep") seg = false) :
    getFullPathFromAppName (pathSep :: rtail)
        (getAppName (pathSep :: rtail)
          ((pathSep :: rtail) ++ pathSep :: List.intercalate [pathSep] segs)) =
      (pathSep :: rtail) ++ pathSep :: List.intercalate [pathSep] segs := by
  have hrel_split : splitOnChar pathSep (List.intercalate [pathSep] segs) = segs :=
    splitOnChar_intercalate _ _ hsegs (fun x hx => (hnice x hx).2.1)
  have hname : getAppName (pathSep :: rtail)
      ((pathSep :: rtail) ++ pathSep :: List.intercalate [pathSep] segs)
      = List.intercalate sepToken segs := by
    unfold getAppName
    have hshape : (pathSep :: rtail) ++ pathSep :: List.intercalate [pathSep] segs
        = ((pathSep :: rtail) ++ [pathSep]) ++ List.intercalate [pathSep] segs := by simp
    rw [hshape, replaceFirst_self _ _ _ (by simp), List.nil_append]
    dsimp only
    rw [hrel_split]
  rw [hname]
  unfold getFullPathFromAppName
  rw [replaceAll_intercalate segs (fun x hx => (hnice x hx).2.2.2.2)]
  exact pathJoin_nice rtail segs hsegs hroot
    (fun x hx => ⟨(hnice x hx).1, (hnice x hx).2.1, (hnice x hx).2.2.1, (hnice x hx).2.2.2.1⟩)

/-- Claim C2 witness: the amended round trip at the concrete path
`/ws/exercises/01.ex`. -/
theorem C2_roundtrip_witness :
    getFullPathFromAppName (pathSep :: js "ws")
        (getAppName (pathSep :: js "ws")
          ((pathSep :: js "ws") ++ pathSep :: List.intercalate [pathSep] [js "exercises", js "01.ex"])) =
      (pathSep :: js "ws") ++ pathSep :: List.intercalate [pathSep] [js "exercises", js "01.ex"] :=
  C2_name_roundtrip_amended (js "ws") [js "exercises", js "01.ex"]
    (by decide) (by decide) (by decide)

/-- Claim C3: `getForceFreshForDir` on an absolute directory returns true for
an absent cache entry, true when the staleness map records a time strictly
newer than the entry creation time, and undefined when the directory was
never recorded (or the recorded time is not newer); consequently, after
`setModifiedTimesForDir` with a timestamp newer than the cached entry, the
force-fresh flag is true and the (spec-modelled) cachified fetch performs a
fresh compute even inside the TTL window. -/
theorem C3_staleness_semantics (m : TimeMap) (dir : JStr) (habs : isAbsolute dir = true) :
    (getForceFreshForDir m dir (none : Option (MCacheEntry Nat)) = Except.ok (some true))
    ∧ (∀ entry : MCacheEntry Nat, m dir = none →
        getForceFreshForDir m dir (some entry) = Except.ok none)
    ∧ (∀ (entry : MCacheEntry Nat) (t : Nat), m dir = some t → entry.createdTime < t →
        getForceFreshForDir m dir (some entry) = Except.ok (some true))
    ∧ (∀ (entry : MCacheEntry Nat) (t : Nat), m dir = some t → ¬ entry.createdTime < t →
        getForceFreshForDir m dir (some entry) = Except.ok none)
    ∧ (∀ (entry : MCacheEntry Nat) (now ttl swr : Nat), entry.createdTime < now →
        getForceFreshForDir (setModifiedTimesForDir now m dir) dir (some entry)
          = Except.ok (some true)
        ∧ cachifiedComputesFresh (some true) (some entry) now ttl swr = true) := by
  have hnabs : ¬ isAbsolute dir = false := by simp [habs]
  refine ⟨?_, ?_, ?_, ?_, ?_⟩
  · unfold getForceFreshForDir
    rw [if_neg hnabs]
  · intro entry hm
    unfold getForceFreshForDir
    rw [if_neg hnabs, hm]
  · intro entry t hm hlt
    unfold getForceFreshForDir
    rw [if_neg hnabs, hm]
    dsimp only
    rw [if_neg (by omega : ¬ t = 0), if_pos hlt]
  · intro entry t hm hge
    unfold getForceFreshForDir
    rw [if_neg hnabs, hm]
    dsimp only
    by_cases ht : t = 0
    · rw [if_pos ht]
    · rw [if_neg ht, if_neg hge]
  · intro entry now ttl swr hlt
    constructor
    · unfold getForceFreshForDir
      rw [if_neg hnabs]
      have hm : setModifiedTimesForDir now m dir dir = some now := by
        simp [setModifiedTimesForDir]
      rw [hm]
      dsimp only
      rw [if_neg (by omega : ¬ now = 0), if_pos hlt]
    · simp [cachifiedComputesFresh]

/-- Claim C3 witness: the staleness semantics at the directory `/abs` with an
entry created at time 10 and a touch at time 11. -/
theorem C3_staleness_witness :
    getForceFreshForDir (setModifiedTimesForDir 11 emptyTimeMap (js "/abs")) (js "/abs")
        (some entryAt10) = Except.ok (some true)
    ∧ cachifiedComputesFresh (some true) (some entryAt10) 11 86400000 0 = true :=
  (C3_staleness_semantics emptyTimeMap (js "/abs") (by decide)).2.2.2.2
    entryAt10 11 86400000 0 (by decide)

/-- Claim C4: after the prune step of `setPlayground`, every file remaining
in the playground listing also appears in the source listing; in particular
the stale file `/stale.txt` is gone. -/
theorem C4_prune_is_mirror :
    (∀ (srcFiles destFiles : List JStr) (f : JStr),
      f ∈ prunePlayground srcFiles destFiles → f ∈ srcFiles)
    ∧ js "/stale.txt" ∉ prunePlayground [js "/a.txt"] [js "/stale.txt", js "/a.txt"] := by
  constructor
  · intro src dest f h
    unfold prunePlayground at h
    rw [mem_foldl_removeFile] at h
    obtain ⟨hdest, hnotdel⟩ := h
    by_contra hnsrc
    apply hnotdel
    rw [List.mem_filter]
    refine ⟨hdest, ?_⟩
    simp only [Bool.not_eq_true']
    cases hc : src.contains f with
    | false => rfl
    | true => exact absurd (List.elem_iff.mp (by simpa [List.contains] using hc)) hnsrc
  · decide

/-- Claim C4 witness: the prune theorem applied to the concrete listing that
keeps `/a.txt`. -/
theorem C4_prune_witness :
    js "/a.txt" ∈ prunePlayground [js "/a.txt"] [js "/stale.txt", js "/a.txt"]
    ∧ js "/a.txt" ∈ [js "/a.txt"] :=
  ⟨by decide, C4_prune_is_mirror.1 [js "/a.txt"] [js "/stale.txt", js "/a.txt"]
    (js "/a.txt") (by decide)⟩

/-- Claim C5, counterexample: `getAppDirInfo` is not throw-free on matching
names: the directory name `0.problem` matches the step pattern, parses a zero
(falsy) step number, and throws instead of returning null. -/
theorem C5_classifier_counterexample :
    getAppDirInfo (js "0.problem") = Except.error stepNumberError := rfl

/-- Claim C5, amended: the classifier returns the parsed record on a pattern
match whose digit string denotes a positive value below the double-overflow
bound, returns null on every non-matching name, and throws (caught upstream
at the app-builder boundary) when the name matches but the digits denote zero
or overflow the double range; the two concrete evaluations of the claim
hold. -/
theorem C5_classifier_amended :
    (getAppDirInfo (js "03.problem.extra-credit")
      = Except.ok (some ⟨3, StepType.problem, some (js "extra-credit")⟩))
    ∧ (getAppDirInfo (js "not-a-match") = Except.ok none)
    ∧ (∀ d, matchStepDir d = none → getAppDirInfo d = Except.ok none)
    ∧ (∀ d ds ty sub, matchStepDir d = some (ds, ty, sub) → natFromDigits ds ≠ 0 →
        jsNumberOverflows (natFromDigits ds) = false →
        getAppDirInfo d = Except.ok (some ⟨natFromDigits ds, ty, sub⟩))
    ∧ (∀ d ds ty sub, matchStepDir d = some (ds, ty, sub) →
        (natFromDigits ds = 0 ∨ jsNumberOverflows (natFromDigits ds) = true) →
        getAppDirInfo d = Except.error stepNumberError) := by
  refine ⟨rfl, rfl, ?_, ?_, ?_⟩
  · intro d h
    unfold getAppDirInfo
    rw [h]
  · intro d ds ty sub h h0 hov
    unfold getAppDirInfo
    rw [h]
    dsimp only
    rw [if_neg (by simp [h0, hov])]
  · intro d ds ty sub h hor
    unfold getAppDirInfo
    rw [h]
    dsimp only
    rw [if_pos hor]

/-- Claim C5 witness: the amended classifier behaviour at `01.problem`. -/
theorem C5_classifier_witness :
    getAppDirInfo (js "01.problem") = Except.ok (some ⟨1, StepType.problem, none⟩) :=
  C5_classifier_amended.2.2.2.1 (js "01.problem") (js "01") StepType.problem none rfl
    (by decide) (by decide)

/-- Claim C7: a build failure on one directory is absorbed by the per-app
catch of the scan loop: the failing directory contributes nothing and the
loop result is the same as if the directory were absent, while every
successfully built app is still included. -/
theorem C7_per_app_failure_is_isolated :
    (∀ (build : JStr → Except JStr (Option MApp)) (pre post : List JStr) (bad e : JStr),
      build bad = Except.error e →
      buildLoop build (pre ++ bad :: post) = buildLoop build (pre ++ post))
    ∧ (∀ (build : JStr → Except JStr (Option MApp)) (dirs : List JStr) (d : JStr) (a : MApp),
      d ∈ dirs → build d = Except.ok (some a) → a ∈ buildLoop build dirs) := by
  constructor
  · intro build pre post bad e hb
    induction pre with
    | nil =>
      simp only [List.nil_append, buildLoop, hb]
    | cons d rest ih =>
      simp only [List.cons_append, buildLoop]
      cases build d with
      | error e2 => exact ih
      | ok v =>
        cases v with
        | none => exact ih
        | some a => exact congrArg (a :: ·) ih
  · intro build dirs d a hmem hb
    induction dirs with
    | nil => simp at hmem
    | cons x xs ih =>
      rcases List.mem_cons.mp hmem with h | h
      · subst h
        simp only [buildLoop, hb]
        exact List.mem_cons_self _ _
      · cases hx : build x with
        | error e2 => simp only [buildLoop, hx]; exact ih h
        | ok v =>
          cases v with
          | none => simp only [buildLoop, hx]; exact ih h
          | some a2 => simp only [buildLoop, hx]; exact List.mem_cons_of_mem _ (ih h)

/-- Claim C7 witness: the isolation theorem at a concrete failing build. -/
theorem C7_failure_witness :
    failingBuild (js "bad") = Except.error (js "boom")
    ∧ buildLoop failingBuild ([js "good"] ++ js "bad" :: [])
        = buildLoop failingBuild ([js "good"] ++ [])
    ∧ mkApp "survivor" AppType.problem 1 1 ∈ buildLoop failingBuild [js "good"] :=
  ⟨rfl,
   C7_per_app_failure_is_isolated.1 failingBuild [js "good"] [] (js "bad") (js "boom") rfl,
   C7_per_app_failure_is_isolated.2 failingBuild [js "good"] (js "good") _ (by decide) rfl⟩

/-- Claim C8, counterexample: port assignment is not collision-avoiding in
general: the problem apps of exercise 1 step 11 and exercise 2 step 1 are two
distinct apps both assigned port 6011. -/
theorem C8_port_collision_counterexample :
    (getProblemAppFromPath collidingPortsEnv (js "/ws/exercises/01.a/11.problem")).map
      (Option.map MApp.portNumber) = Except.ok (some 6011)
    ∧ (getProblemAppFromPath collidingPortsEnv (js "/ws/exercises/02.b/01.problem")).map
      (Option.map MApp.portNumber) = Except.ok (some 6011)
    ∧ (getProblemAppFromPath collidingPortsEnv (js "/ws/exercises/01.a/11.problem")).map
      (Option.map MApp.name) = Except.ok (some (js "exercises__sep__01.a__sep__11.problem"))
    ∧ (getProblemAppFromPath collidingPortsEnv (js "/ws/exercises/02.b/01.problem")).map
      (Option.map MApp.name) = Except.ok (some (js "exercises__sep__02.b__sep__01.problem"))
    ∧ js "exercises__sep__01.a__sep__11.problem" ≠ js "exercises__sep__02.b__sep__01.problem" := by
  exact ⟨rfl, rfl, rfl, rfl, by decide⟩

/-- Claim C8, amended: each builder assigns its documented port formula
(problems `6000 + (e-1)*10 + s`, solutions `7000 + (e-1)*10 + s`, examples
`8000 + index`, playground `4000`), and the assignment is collision-free on
catalogs whose exercise numbers stay within 1..99 and step numbers within
1..10 (without those bounds two distinct apps can collide, e.g. problem(1,11)
and problem(2,1)). -/
theorem C8_ports_amended :
    (∀ (env : ScanEnv) (p : JStr) (a : MApp), getProblemAppFromPath env p = Except.ok (some a) →
      a.portNumber = 6000 + (a.exerciseNumber - 1) * 10 + a.stepNumber)
    ∧ (∀ (env : ScanEnv) (p : JStr) (a : MApp), getSolutionAppFromPath env p = Except.ok (some a) →
      a.portNumber = 7000 + (a.exerciseNumber - 1) * 10 + a.stepNumber)
    ∧ (∀ (env : ScanEnv) (p : JStr) (i : Nat) (a : MApp),
        getExampleAppFromPath env p i = Except.ok (some a) → a.portNumber = 8000 + i)
    ∧ (∀ (env : ScanEnv) (a : MApp), getPlaygroundApp env = some a → a.portNumber = 4000)
    ∧ (∀ e s e2 s2 i j : Nat, 1 ≤ e → e ≤ 99 → 1 ≤ s → s ≤ 10 →
        1 ≤ e2 → e2 ≤ 99 → 1 ≤ s2 → s2 ≤ 10 →
        ((e, s) ≠ (e2, s2) → problemPortNumber e s ≠ problemPortNumber e2 s2)
        ∧ ((e, s) ≠ (e2, s2) → solutionPortNumber e s ≠ solutionPortNumber e2 s2)
        ∧ problemPortNumber e s ≠ solutionPortNumber e2 s2
        ∧ problemPortNumber e s ≠ examplePortNumber i
        ∧ solutionPortNumber e s ≠ examplePortNumber i
        ∧ problemPortNumber e s ≠ playgroundPortNumber
        ∧ solutionPortNumber e s ≠ playgroundPortNumber
        ∧ examplePortNumber i ≠ playgroundPortNumber
        ∧ (i ≠ j → examplePortNumber i ≠ examplePortNumber j)) := by
  refine ⟨?_, ?_, ?_, ?_, ?_⟩
  · intro env p a h
    exact (getProblemAppFromPath_fields h).2
  · intro env p a h
    exact (getSolutionAppFromPath_fields h).2
  · intro env p i a h
    exact (getExampleAppFromPath_fields h).2
  · intro env a h
    exact (getPlaygroundApp_fields h).2
  · intro e s e2 s2 i j he1 he2 hs1 hs2 hf1 hf2 hg1 hg2
    unfold problemPortNumber solutionPortNumber examplePortNumber playgroundPortNumber
    refine ⟨?_, ?_, by omega, by omega, by omega, by omega, by omega, by omega, by omega⟩
    · intro hne heq
      apply hne
      have hee : e = e2 := by omega
      have hss : s = s2 := by omega
      rw [hee, hss]
    · intro hne heq
      apply hne
      have hee : e = e2 := by omega
      have hss : s = s2 := by omega
      rw [hee, hss]

/-- Claim C8 witness: the port formula at the concrete build from
`collidingPortsEnv`, and distinctness within the bounded regime. -/
theorem C8_ports_witness :
    collidedProblemApp.portNumber
      = 6000 + (collidedProblemApp.exerciseNumber - 1) * 10 + collidedProblemApp.stepNumber
    ∧ problemPortNumber 1 2 ≠ problemPortNumber 2 1
    ∧ examplePortNumber 0 ≠ playgroundPortNumber :=
  ⟨C8_ports_amended.1 collidingPortsEnv (js "/ws/exercises/02.b/01.problem")
      collidedProblemApp rfl,
   (C8_ports_amended.2.2.2.2 1 2 2 1 0 0 (by decide) (by decide) (by decide) (by decide)
      (by decide) (by decide) (by decide) (by decide)).1 (by decide),
   (C8_ports_amended.2.2.2.2 1 2 2 1 0 0 (by decide) (by decide) (by decide) (by decide)
      (by decide) (by decide) (by decide) (by decide)).2.2.2.2.2.2.2.1⟩

/-- Claim C9: every catalog snapshot assembled by the fresh computation of
`getApps` contains at most one playground app: the playground slot
contributes at most one record and the problem, solution and example
builders never produce a playground-typed record; sorting permutes. -/
theorem C9_at_most_one_playground (env : ScanEnv) :
    List.countP isPlaygroundApp (getAppsFresh env) ≤ 1 := by
  unfold getAppsFresh sortApps
  rw [(insertionSort_perm _ _).countP_eq]
  rw [List.countP_append, List.countP_append, List.countP_append]
  have hp : List.countP isPlaygroundApp (getProblemApps env) = 0 := by
    unfold getProblemApps
    exact buildLoop_countP_zero (fun d a h => by
      have ht := (getProblemAppFromPath_fields h).1
      simp [isPlaygroundApp, ht]) _
  have hs : List.countP isPlaygroundApp (getSolutionApps env) = 0 := by
    unfold getSolutionApps
    exact buildLoop_countP_zero (fun d a h => by
      have ht := (getSolutionAppFromPath_fields h).1
      simp [isPlaygroundApp, ht]) _
  have he : List.countP isPlaygroundApp (getExampleApps env) = 0 := by
    unfold getExampleApps
    exact buildLoop_countP_zero (fun d a h => by
      have ht := (getExampleAppFromPath_fields h).1
      simp [isPlaygroundApp, ht]) _
  have hg : List.countP isPlaygroundApp
      (match getPlaygroundApp env with | some p => [p] | none => []) ≤ 1 := by
    cases getPlaygroundApp env with
    | none => simp
    | some p => cases hpl : isPlaygroundApp p <;> simp [List.countP_cons, hpl]
  omega

/-- Claim C10: `getForceFreshForDir` throws exactly on non-absolute
directory paths: a non-absolute path produces the error regardless of the
cache entry, and an absolute path always returns normally. -/
theorem C10_nonabsolute_throws (m : TimeMap) (dir : JStr)
    (entry? : Option (MCacheEntry Nat)) :
    (isAbsolute dir = false →
      getForceFreshForDir m dir entry? = Except.error forceFreshPathError)
    ∧ (isAbsolute dir = true → ∃ v, getForceFreshForDir m dir entry? = Except.ok v) := by
  constructor
  · intro h
    unfold getForceFreshForDir
    rw [if_pos h]
  · intro h
    unfold getForceFreshForDir
    rw [if_neg (by simp [h])]
    cases entry? with
    | none => exact ⟨some true, rfl⟩
    | some entry =>
      cases hm : m dir with
      | none => exact ⟨none, rfl⟩
      | some t =>
        by_cases ht : t = 0
        · refine ⟨none, ?_⟩
          dsimp only
          rw [if_pos ht]
        · by_cases hlt : entry.createdTime < t
          · refine ⟨some true, ?_⟩
            dsimp only
            rw [if_neg ht, if_pos hlt]
          · refine ⟨none, ?_⟩
            dsimp only
            rw [if_neg ht, if_neg hlt]

/-- Claim C10 witness: the throw on a relative path and the normal return on
an absolute path, both with the same cache entry. -/
theorem C10_nonabsolute_witness :
    getForceFreshForDir emptyTimeMap (js "relative/dir") (some entryAt10)
      = Except.error forceFreshPathError
    ∧ ∃ v, getForceFreshForDir emptyTimeMap (js "/abs/dir") (some entryAt10)
      = Except.ok v :=
  ⟨(C10_nonabsolute_throws emptyTimeMap (js "relative/dir") (some entryAt10)).1 (by decide),
   (C10_nonabsolute_throws emptyTimeMap (js "/abs/dir") (some entryAt10)).2 (by decide)⟩

/-- Claim C6, counterexample: cross-link symmetry fails for subtitled
variants: with `01.problem.foo` and `01.solution.foo` in the same exercise,
the problem's `solutionName` correctly names the solution (the search
`startsWith("01.solution")` matches), but the solution's `problemName` is
null, because `findProblemDir` demands a sibling that ends with `problem`,
which `01.problem.foo` does not. -/
theorem C6_crosslink_counterexample :
    (getProblemAppFromPath subtitledExercisesEnv (js "/ws/exercises/01.ex/01.problem.foo")).map
      (Option.map MApp.solutionName)
      = Except.ok (some (some (js "exercises__sep__01.ex__sep__01.solution.foo")))
    ∧ (getSolutionAppFromPath subtitledExercisesEnv (js "/ws/exercises/01.ex/01.solution.foo")).map
      (Option.map MApp.name)
      = Except.ok (some (js "exercises__sep__01.ex__sep__01.solution.foo"))
    ∧ (getProblemAppFromPath subtitledExercisesEnv (js "/ws/exercises/01.ex/01.problem.foo")).map
      (Option.map MApp.name)
      = Except.ok (some (js "exercises__sep__01.ex__sep__01.problem.foo"))
    ∧ (getSolutionAppFromPath subtitledExercisesEnv (js "/ws/exercises/01.ex/01.solution.foo")).map
      (Option.map MApp.problemName)
      = Except.ok (some none) := by
  exact ⟨rfl, rfl, rfl, rfl⟩

/-- Claim C6, amended: cross-link symmetry holds when the problem directory
is exactly the padded `NN.problem` (no subtitle), the solution directory
starts with `NN.solution` (subtitle allowed), both parse to the same step
number, and each is the unique sibling matched by the respective search
predicate; then the two independently built apps name each other. -/
theorem C6_crosslink_amended
    (env : ScanEnv) (parentDir dp ds P : JStr) (subOpt : Option JStr) (s eN : Nat)
    (hP : P = padStart 2 '0' (natDigits s))
    (hdp : dp = P ++ js ".problem")
    (hdp_ns : pathSep ∉ dp)
    (hds_ns : pathSep ∉ ds) (hds_ne : ds ≠ [])
    (hparent_ne : parentDir ≠ [])
    (hinfo_p : getAppDirInfo dp = Except.ok (some ⟨s, StepType.problem, none⟩))
    (hinfo_s : getAppDirInfo ds = Except.ok (some ⟨s, StepType.solution, subOpt⟩))
    (hpre_s : ((P ++ js ".solution").isPrefixOf ds) = true)
    (hexer : extractExerciseNumber (basename parentDir) = some eN) (heN : ¬ eN = 0)
    (hmem_p : dp ∈ env.readdir parentDir) (hmem_s : ds ∈ env.readdir parentDir)
    (huniq_s : ∀ x ∈ env.readdir parentDir,
      ((P ++ js ".solution").isPrefixOf x) = true → x = ds)
    (huniq_p : ∀ x ∈ env.readdir parentDir,
      ((js "problem").isSuffixOf x && hasSubstr P x) = true → x = dp)
    (hjoin_p : pathJoin parentDir dp = parentDir ++ pathSep :: dp)
    (hjoin_s : pathJoin parentDir ds = parentDir ++ pathSep :: ds) :
    ∃ pa sa,
      getProblemAppFromPath env (parentDir ++ pathSep :: dp) = Except.ok (some pa)
      ∧ getSolutionAppFromPath env (parentDir ++ pathSep :: ds) = Except.ok (some sa)
      ∧ pa.solutionName = some sa.name
      ∧ sa.problemName = some pa.name := by
  have hdp_ne : dp ≠ [] := by
    rw [hdp]
    intro hcon
    exact absurd (List.append_eq_nil.mp hcon).2 (by decide)
  have hbase_p : basename (parentDir ++ pathSep :: dp) = dp :=
    basename_append_seg hdp_ne hdp_ns
  have hdir_p : dirname (parentDir ++ pathSep :: dp) = parentDir :=
    dirname_append_seg hdp_ne hdp_ns hparent_ne
  have hbase_s : basename (parentDir ++ pathSep :: ds) = ds :=
    basename_append_seg hds_ne hds_ns
  have hdir_s : dirname (parentDir ++ pathSep :: ds) = parentDir :=
    dirname_append_seg hds_ne hds_ns hparent_ne
  have hhsp : hasSubstr (js ".problem") dp = true := by
    rw [hdp]
    exact hasSubstr_append_self _ _
  obtain ⟨tl, htl⟩ := List.isPrefixOf_iff_prefix.mp hpre_s
  have hds_eq : ds = P ++ (js ".solution" ++ tl) := by
    rw [← htl]
    simp
  have hhss : hasSubstr (js ".solution") ds = true := by
    rw [hds_eq]
    exact hasSubstr_append_both _ _ _
  have hfind_s : findSolutionDir env env.fuel (parentDir ++ pathSep :: dp)
      = Except.ok (some (parentDir ++ pathSep :: ds)) := by
    unfold findSolutionDir
    dsimp only
    rw [hbase_p, if_pos hhsp, hinfo_p]
    dsimp only
    rw [hdir_p, ← hP]
    rw [@find?_unique (env.readdir parentDir)
      (fun dir => (P ++ js ".solution").isPrefixOf dir) ds hmem_s hpre_s huniq_s]
    dsimp only
    rw [hjoin_s]
  have hsuf_p : ((js "problem").isSuffixOf dp) = true := by
    rw [List.isSuffixOf_iff_suffix]
    rw [hdp, show js ".problem" = ['.'] ++ js "problem" from rfl, ← List.append_assoc]
    exact List.suffix_append _ _
  have hsub_p : hasSubstr P dp = true := by
    rw [hdp]
    exact hasSubstr_append_both P [] (js ".problem")
  have hfind_p : findProblemDir env env.fuel (parentDir ++ pathSep :: ds)
      = Except.ok (some (parentDir ++ pathSep :: dp)) := by
    unfold findProblemDir
    dsimp only
    rw [hbase_s, if_pos hhss, hinfo_s]
    dsimp only
    rw [hdir_s, ← hP]
    rw [@find?_unique (env.readdir parentDir)
      (fun dir => (js "problem").isSuffixOf dir && hasSubstr P dir) dp hmem_p
      (by show ((js "problem").isSuffixOf dp && hasSubstr P dp) = true
          rw [hsuf_p, hsub_p]
          rfl) huniq_p]
    dsimp only
    rw [hjoin_p]
  have hprob : getProblemAppFromPath env (parentDir ++ pathSep :: dp) = Except.ok (some
      { name := getAppName env.root (parentDir ++ pathSep :: dp)
        type := AppType.problem
        exerciseNumber := eN
        stepNumber := s
        portNumber := problemPortNumber eN s
        solutionName := some (getAppName env.root (parentDir ++ pathSep :: ds))
        problemName := none
        appName := none
        dirName := dp
        fullPath := parentDir ++ pathSep :: dp }) := by
    unfold getProblemAppFromPath
    dsimp only
    rw [hbase_p, hdir_p, hexer]
    dsimp only
    rw [if_neg heN, hinfo_p]
    dsimp only
    rw [hfind_s]
    rfl
  have hsol : getSolutionAppFromPath env (parentDir ++ pathSep :: ds) = Except.ok (some
      { name := getAppName env.root (parentDir ++ pathSep :: ds)
        type := AppType.solution
        exerciseNumber := eN
        stepNumber := s
        portNumber := solutionPortNumber eN s
        solutionName := none
        problemName := some (getAppName env.root (parentDir ++ pathSep :: dp))
        appName := none
        dirName := ds
        fullPath := parentDir ++ pathSep :: ds }) := by
    unfold getSolutionAppFromPath
    dsimp only
    rw [hbase_s, hdir_s, hexer]
    dsimp only
    rw [if_neg heN, hinfo_s]
    dsimp only
    rw [hfind_p]
    rfl
  exact ⟨_, _, hprob, hsol, rfl, rfl⟩

/-- Claim C6 witness: the amended symmetry at the concrete exercise with
directories `01.problem` and `01.solution.foo`. -/
theorem C6_crosslink_witness :
    ∃ pa sa,
      getProblemAppFromPath plainExercisesEnv
          (js "/ws/exercises/01.ex" ++ pathSep :: js "01.problem") = Except.ok (some pa)
      ∧ getSolutionAppFromPath plainExercisesEnv
          (js "/ws/exercises/01.ex" ++ pathSep :: js "01.solution.foo") = Except.ok (some sa)
      ∧ pa.solutionName = some sa.name
      ∧ sa.problemName = some pa.name :=
  C6_crosslink_amended plainExercisesEnv (js "/ws/exercises/01.ex")
    (js "01.problem") (js "01.solution.foo") (js "01") (some (js "foo")) 1 1
    (by decide) (by decide) (by decide) (by decide) (by decide) (by decide)
    rfl rfl (by decide) rfl (by decide) (by decide) (by decide)
    (by decide) (by decide) rfl rfl

end Kcdshop
